import Mathlib

/-!
Verification of the environment-reconstruction engine of
`reprounzip/unpackers/default.py` (the `chroot` unpacker).

The development shallowly embeds the module: paths are Lean `String`s
manipulated through their underlying `List Char`, the filesystem effects of
`create_chroot` are recorded as an ordered event trace, and fatal Python
exceptions are modelled as error values that stop the pipeline.  Every
definition follows the corresponding Python source line by line; external
collaborators that are not part of the source file (`find_all_links`,
`shell_escape`, the configuration loader, the `ldd` subprocess and the
trace database) appear as inputs of the model or as definitions explicitly
marked as modelled from the specification.
-/

/-! ## String utilities mirroring Python `str` and `os.path` operations -/

/-- Python `s.startswith(p)`. -/
def sStartsWith (s p : String) : Bool := p.data.isPrefixOf s.data

/-- Python `s.endswith(p)`. -/
def sEndsWith (s p : String) : Bool := p.data.isSuffixOf s.data

/-- Python `s[n:]` (drop the first `n` characters). -/
def sdrop (s : String) (n : Nat) : String := String.mk (s.data.drop n)

/-- Python `os.path.join(a, b)` for POSIX paths (two-argument form):
`b` absolute wins; otherwise concatenate, inserting a slash when `a` is
nonempty and does not already end with one. -/
def pjoin (a b : String) : String :=
  if sStartsWith b "/" then b
  else if a = "" || sEndsWith a "/" then a ++ b
  else a ++ "/" ++ b

/-- Core of Python `'..' in s`: does the character list contain two
consecutive dots? -/
def hasDotDot : List Char → Bool
  | c1 :: c2 :: rest => (c1 = '.' && c2 = '.') || hasDotDot (c2 :: rest)
  | _ => false

/-- Python `'..' in s` (substring containment, the check used on tar member
names at line 122 of the source). -/
def containsDotDot (s : String) : Bool := hasDotDot s.data

/-- Python `os.path.dirname` (posixpath): take the prefix up to and
including the last slash; if that prefix is nonempty and not made only of
slashes, strip its trailing slashes. -/
def pydirnameData (cs : List Char) : List Char :=
  if ((cs.reverse.dropWhile (fun c => c ≠ '/')).all (fun c => c = '/')) then
    (cs.reverse.dropWhile (fun c => c ≠ '/')).reverse
  else
    ((cs.reverse.dropWhile (fun c => c ≠ '/')).dropWhile
      (fun c => c = '/')).reverse

/-- Python `os.path.dirname` on strings. -/
def pydirname (s : String) : String := String.mk (pydirnameData s.data)

/-! ## The `makedir` helper (source lines 18-24)

```
def makedir(path):
    if not os.path.exists(path):
        makedir(os.path.dirname(path))
        try:
            os.mkdir(path)
        except OSError:
            pass
```

For its algebraic properties the filesystem is modelled as the list of
directory paths that exist, a path being the list of its components (so
`os.path.dirname` is `List.dropLast` and the filesystem root `[]` always
exists, as `/` does on the host).  `os.mkdir` succeeds exactly when the
parent exists and the path does not; every `OSError` it raises is swallowed
by the `except` clause, so `makedir` itself never raises. -/

/-- The mutable filesystem: the set of existing directories, each given by
its component list. -/
structure DirFS where
  dirs : List (List String)
  deriving DecidableEq

/-- Python `os.path.exists` in the component-list model; the root `[]`
always exists. -/
def fsExists (fs : DirFS) (p : List String) : Bool :=
  p = [] || decide (p ∈ fs.dirs)

/-- Python `os.mkdir`: fails (raises `OSError`) when the path already
exists or its parent is missing, otherwise records the new directory. -/
def osMkdir (fs : DirFS) (p : List String) : Except Unit DirFS :=
  if fsExists fs p then Except.error ()
  else if fsExists fs p.dropLast then Except.ok ⟨p :: fs.dirs⟩
  else Except.error ()

/-- The `try: os.mkdir(path) / except OSError: pass` block of the source:
attempt the mkdir and keep the filesystem unchanged when it raises. -/
def tryMkdir (fs : DirFS) (p : List String) : DirFS :=
  match osMkdir fs p with
  | Except.ok fs2 => fs2
  | Except.error _ => fs

/-- The recursive `makedir` of the source: ensure the parent, then attempt
`os.mkdir`, swallowing any `OSError`.  Total because the `except` clause
discards every failure. -/
def makedir (fs : DirFS) (p : List String) : DirFS :=
  if h : fsExists fs p then fs
  else tryMkdir (makedir fs p.dropLast) p
termination_by p.length
decreasing_by
  have hp : p ≠ [] := by
    intro hnil
    apply h
    simp [hnil, fsExists]
  have hlen : p.length ≠ 0 := by
    simpa using List.length_eq_zero.not.mpr hp
  simp only [List.length_dropLast]
  omega

theorem osMkdir_ok (fs : DirFS) (p : List String) (fs2 : DirFS)
    (h : osMkdir fs p = Except.ok fs2) : fs2 = ⟨p :: fs.dirs⟩ := by
  unfold osMkdir at h
  by_cases h1 : fsExists fs p = true
  · rw [if_pos h1] at h; exact absurd h (by simp)
  · rw [if_neg h1] at h
    by_cases h2 : fsExists fs p.dropLast = true
    · rw [if_pos h2, Except.ok.injEq] at h; exact h.symm
    · rw [if_neg h2] at h; exact absurd h (by simp)

theorem osMkdir_error (fs : DirFS) (p : List String) (a : Unit)
    (h : osMkdir fs p = Except.error a)
    (hpar : fsExists fs p.dropLast = true) : fsExists fs p = true := by
  unfold osMkdir at h
  by_cases h1 : fsExists fs p = true
  · exact h1
  · rw [if_neg h1, if_pos hpar] at h
    exact absurd h (by simp)

theorem fsExists_tryMkdir (fs : DirFS) (p : List String)
    (hpar : fsExists fs p.dropLast = true) :
    fsExists (tryMkdir fs p) p = true := by
  unfold tryMkdir
  cases hos : osMkdir fs p with
  | ok fs2 =>
    have h2 := osMkdir_ok fs p fs2 hos
    subst h2
    simp [fsExists]
  | error a => exact osMkdir_error fs p a hos hpar

theorem fsExists_makedir (fs : DirFS) (p : List String) :
    fsExists (makedir fs p) p = true := by
  induction p using makedir.induct fs with
  | case1 x h => rw [makedir, dif_pos h]; exact h
  | case2 x h ih =>
    rw [makedir, dif_neg h]
    exact fsExists_tryMkdir (makedir fs x.dropLast) x ih

/-- Every path that `makedir` was called on exists afterwards; in
particular a second call hits the `if not os.path.exists(path)` guard and
returns the filesystem unchanged (and, the `except` clause swallowing every
`OSError`, no call ever raises). -/
theorem makedir_of_exists (fs : DirFS) (p : List String)
    (h : fsExists fs p = true) : makedir fs p = fs := by
  rw [makedir, dif_pos h]

/-- C9: the directory-ensure operation `makedir` is idempotent: after a
(necessarily successful, since `makedir` swallows every `OSError` and so
never raises) first call, a second call on the same path raises no error
and leaves the filesystem exactly as the first call left it. -/
theorem claim_C9_makedir_idempotent (fs : DirFS) (p : List String) :
    makedir (makedir fs p) p = makedir fs p :=
  makedir_of_exists (makedir fs p) p (fsExists_makedir fs p)

/-! ## The `ldd` output parser (source lines 132-140)

```
fmt = re.compile(r'^\t(?:[^ ]+ => )?([^ ]+) \([x0-9a-z]+\)$')
...
for l in p.stdout:
    l = l.decode('ascii')
    m = fmt.match(l)
    f = m.group(1)
```

`matchLddLine` returns the capture group of `fmt.match(l)` when the match
succeeds and `none` when `fmt.match` returns `None` (in which case the
source crashes on `m.group(1)` with an `AttributeError`).  The regex is
implemented directly: a line matches exactly when, after the mandatory tab
(and ignoring one trailing newline, which `$` permits), it ends in a space,
an opening parenthesis, one or more characters from `[x0-9a-z]` and a
closing parenthesis, and what precedes is either a single nonempty
space-free token (the capture) or `name => path` with `name` and `path`
nonempty space-free tokens (capturing `path`). -/

/-- A character of the `[x0-9a-z]` class of the regex. -/
def isAddrChar (c : Char) : Bool := c.isDigit || ('a' ≤ c && c ≤ 'z')

/-- A nonempty token without spaces, as matched by `[^ ]+`. -/
def isTok (cs : List Char) : Bool := !cs.isEmpty && cs.all (fun c => c ≠ ' ')

/-- Match the part of the line before the ` (address)` suffix against
`(?:[^ ]+ => )?([^ ]+)`, anchored on both sides, returning the capture. -/
def matchLddPre (pre : List Char) : Option (List Char) :=
  if isTok pre then some pre
  else
    let name := pre.takeWhile (fun c => c ≠ ' ')
    match pre.drop name.length with
    | ' ' :: '=' :: '>' :: ' ' :: path =>
      if !name.isEmpty && isTok path then some path else none
    | _ => none

/-- Match a whole `ldd` output line against `fmt`, returning the capture
group (`None` becomes `none`). -/
def matchLddLine (l : String) : Option String :=
  let cs := if l.data.getLast? = some '\n' then l.data.dropLast else l.data
  match cs with
  | '\t' :: body =>
    match body.reverse with
    | ')' :: rest =>
      let addr := rest.takeWhile isAddrChar
      if addr.isEmpty then none
      else
        match rest.drop addr.length with
        | '(' :: ' ' :: preRev =>
          match matchLddPre preRev.reverse with
          | some path => some (String.mk path)
          | none => none
        | _ => none
    | _ => none
  | _ => none

/-! ## The replay-script generator (source lines 163-175)

`shell_escape` is imported from `reprounzip.unpackers.common`, which is not
part of the sources; it is modelled from the specification below.  The
generator itself follows the source exactly: a shebang header, then for
each run one `fp.write` of the formatted `chroot` line. -/

/-- A single-quote character, written by code point. -/
def sqt : String := String.singleton (Char.ofNat 39)

/-- Characters whose presence makes a token unsafe to splice into shell
text unquoted. -/
def shellSpecial (c : Char) : Bool :=
  c = ' ' || c = '\t' || c = '\n' || c = Char.ofNat 39 || c = '"' ||
  c = '\\' || c = '$' || c = Char.ofNat 96 || c = '&' || c = '|' ||
  c = ';' || c = '<' || c = '>' || c = '(' || c = ')' || c = '*' ||
  c = '?' || c = '[' || c = ']' || c = '#' || c = '~'

/-- Modelled from the spec: `shell_escape` (imported from
`reprounzip.unpackers.common`, absent from the sources) must render any
token so that a POSIX shell reads it back as one literal word; following
the end-to-end example of the specification, a token without whitespace or
shell metacharacters is left bare and any other token is single-quoted,
embedded single quotes being closed, backslash-escaped and reopened. -/
def shell_escape (s : String) : String :=
  if s.data.any shellSpecial || s = "" then
    sqt ++ s.replace sqt (sqt ++ "\\" ++ sqt ++ sqt) ++ sqt
  else s

/-- One recorded process invocation, as returned by the external
configuration loader: the dictionary keys used by the source are
`workingdir`, `binary`, `argv` (always present) and `uid`, `gid`
(looked up with `run.get(key, 1000)`). -/
structure ChRun where
  binary : String
  argv : List String
  workingdir : String
  uid : Option Nat
  gid : Option Nat
  deriving DecidableEq

/-- Source line 166 and 168-170: the command string
`'cd %s && ' % shell_escape(run['workingdir'])` followed by the
space-joined escapes of `[run['binary']] + run['argv'][1:]`. -/
def runCmd (run : ChRun) : String :=
  "cd " ++ shell_escape run.workingdir ++ " && " ++
    String.intercalate " " ((run.binary :: run.argv.drop 1).map shell_escape)

/-- Source line 171: `'%s:%s' % (run.get('uid', 1000), run.get('gid', 1000))`. -/
def userspec (run : ChRun) : String :=
  toString (run.uid.getD 1000) ++ ":" ++ toString (run.gid.getD 1000)

/-- Source lines 172-175: the formatted `chroot` line written for one run
(the format string ends in a newline). -/
def runLine (root : String) (run : ChRun) : String :=
  "chroot --userspec=" ++ userspec run ++ " " ++ shell_escape root ++
    " /bin/sh -c " ++ shell_escape (runCmd run) ++ "\n"

/-- Source lines 163-175: the full content of `script.sh` — the shebang
header written first, then one `fp.write` per run, in order. -/
def scriptContent (root : String) (runs : List ChRun) : String :=
  runs.foldl (fun acc run => acc ++ runLine root run) "#!/bin/sh\n\n"

/-! ## The `create_chroot` pipeline (source lines 73-178)

The pipeline is embedded as a trace semantics: running it on a
configuration produces the ordered list of filesystem effects on the
target directory together with `none` (normal completion) or the fatal
error that aborted it (a `sys.exit` call or an uncaught Python
exception).  The inputs that the source obtains from collaborators —
`load_config` (runs and packages), `find_all_links` (symlink chains, from
`reprounzip.utils`, not in the sources), the pack's member list, the
`ldd` subprocess's output and exit status, and `list_directories`'s query
of the trace database — are all part of the configuration.

Granularity notes, for checking the model against the source:
* `os.path.abspath` on line 90 is not modelled; theorems that need a
  normalized target path assume one.
* `dest[0] == '/'` on lines 111 and 142 is modelled as `startswith('/')`;
  the two differ only on the empty string (where Python raises
  `IndexError`).
* `makedir(p)` is recorded as a single event carrying `p`; the missing
  ancestors it also creates are not enumerated.  `os.path.exists` checks
  on destinations compare against the paths recorded so far (the target
  directory is freshly created, so nothing else exists under it).
* `shutil.copy(f, dest)` raises `IOError` when `f` does not exist and
  silently overwrites an existing `dest`; `os.symlink` raises
  `FileExistsError` when `dest` exists.  Permission errors, directories
  at `dest` and non-ASCII `ldd` output are outside the model. -/

/-- A package from the pack's configuration: its name, the `packfiles`
flag, and the paths of its `File` entries. -/
structure ChPkg where
  name : String
  packfiles : Bool
  files : List String
  deriving DecidableEq

/-- The host environment: which paths exist (`os.path.exists`, which
follows symlinks, so a dangling symlink is *not* in `hostPaths`), which
paths are symlinks and their `readlink` targets, and the symlink chain
that `find_all_links` returns for each file path.

Modelled from the spec: `find_all_links` (the Symlink-Chain Resolver of
`reprounzip.utils`, absent from the sources) returns, for a path, the
ordered list of all paths that must exist to realize it; it is supplied
here as data, defaulting to the singleton chain. -/
structure ChHost where
  hostPaths : List String
  symlinks : List (String × String)
  chains : List (String × List String)
  deriving DecidableEq

/-- Python `os.path.exists f` on the host. -/
def hostExists (h : ChHost) (f : String) : Bool := h.hostPaths.contains f

/-- Python `os.path.islink f` on the host. -/
def isLink (h : ChHost) (f : String) : Bool := (h.symlinks.lookup f).isSome

/-- Python `os.readlink f` on the host (meaningful only when `isLink`). -/
def readlink (h : ChHost) (f : String) : String :=
  (h.symlinks.lookup f).getD ""

/-- The chain returned by `find_all_links ff.path` (see `ChHost.chains`). -/
def find_all_links (h : ChHost) (f : String) : List String :=
  (h.chains.lookup f).getD [f]

/-- The whole input of one `create_chroot` invocation. -/
structure ChConfig where
  target : String
  targetExists : Bool
  runs : List ChRun
  packages : List ChPkg
  packMembers : List String
  lddOutput : List String
  lddExit : Int
  traceDirs : Option (List String)
  host : ChHost
  deriving DecidableEq

/-- Source line 90: `root = os.path.abspath(os.path.join(target, 'root'))`
(`abspath` not modelled, see the granularity notes). -/
def rootOf (target : String) : String := pjoin target "root"

/-- The fatal outcomes of `create_chroot`: explicit `sys.exit(1)` calls
and uncaught Python exceptions. -/
inductive CErr where
  /-- line 84: `sys.exit(1)` because the target directory exists. -/
  | targetExists
  /-- line 124: `sys.exit(1)` because a tar member name contains `..`. -/
  | unsafeArchive
  /-- `IOError` from `shutil.copy` reading a missing source file. -/
  | copySourceMissing (f : String)
  /-- `FileExistsError` from `os.symlink` onto an existing destination. -/
  | destLinkExists (dest : String)
  /-- `AttributeError` at line 138: `fmt.match` returned `None`. -/
  | lddNoMatch (line : String)
  /-- `AssertionError` at line 150: `ldd` exited with a nonzero status. -/
  | lddFailed (code : Int)
  deriving DecidableEq

/-- One recorded effect on the target directory, tagged by the source
line that performs it. -/
inductive Ev where
  /-- line 89: `os.mkdir(target)`. -/
  | mkTarget (path : String)
  /-- line 91: `os.mkdir(root)`. -/
  | mkRoot (path : String)
  /-- lines 96-101: the stderr block listing not-packed packages. -/
  | warnNotPacked
  /-- lines 105-109: stderr warning for a chain path missing on the host. -/
  | warnMissing (f : String)
  /-- line 114: `makedir(os.path.dirname(dest))` in the host copier. -/
  | mkdirsHost (path : String)
  /-- line 116: `os.symlink(os.readlink(f), dest)`. -/
  | copyHostLink (dest : String)
  /-- line 118: `shutil.copy(f, dest)` in the host copier. -/
  | copyHostFile (dest : String)
  /-- line 128: extraction of one renamed `DATA/` member into the root. -/
  | extractTo (dest : String)
  /-- line 145: `makedir(os.path.dirname(dest))` in the dependency loop. -/
  | mkdirsDep (path : String)
  /-- line 147: `shutil.copy(f, dest)` in the dependency loop. -/
  | copyDep (dest : String)
  /-- line 151: `makedir(os.path.join(root, 'bin'))`. -/
  | mkdirsBin (path : String)
  /-- line 154: `shutil.copy('/bin/sh', dest)`. -/
  | copyBinSh (dest : String)
  /-- lines 33-35: stderr warning when the pack has no trace database. -/
  | warnNoTrace
  /-- line 160: `makedir(os.path.join(root, directory[1:]))`. -/
  | mkdirsWdir (path : String)
  /-- lines 163-175: writing `script.sh` with the given content. -/
  | scriptOut (content : String)
  deriving DecidableEq

/-- The filesystem path an event makes exist, used to evaluate the
source's `os.path.exists(dest)` checks against the state accumulated so
far (stderr writes and the script file, which no check ever looks at,
yield `none`). -/
def evPath : Ev → Option String
  | Ev.mkTarget p => some p
  | Ev.mkRoot p => some p
  | Ev.warnNotPacked => none
  | Ev.warnMissing _ => none
  | Ev.mkdirsHost p => some p
  | Ev.copyHostLink d => some d
  | Ev.copyHostFile d => some d
  | Ev.extractTo d => some d
  | Ev.mkdirsDep p => some p
  | Ev.copyDep d => some d
  | Ev.mkdirsBin p => some p
  | Ev.copyBinSh d => some d
  | Ev.warnNoTrace => none
  | Ev.mkdirsWdir p => some p
  | Ev.scriptOut _ => none

/-- Python `os.path.exists(p)` inside the target tree: some prior event
created `p`. -/
def pathWrittenIn (evs : List Ev) (p : String) : Bool :=
  evs.any (fun e => evPath e = some p)

/-- Source lines 110-113: the destination of a copy — strip one leading
slash, then join under the root. -/
def destFor (root f : String) : String :=
  pjoin root (if sStartsWith f "/" then sdrop f 1 else f)

/-- Source lines 105-109: the `Missing file` warning, emitted exactly when
the chain path does not exist on the host. -/
def hostWarn (h : ChHost) (f : String) : List Ev :=
  if hostExists h f then [] else [Ev.warnMissing f]

/-- Source lines 104-118, body for one chain path `f`: warn if `f` is
missing on the host, ensure the destination's parent directory, then
recreate the symlink or copy the file.  Returns the events performed and
the exception aborting the loop, if any. -/
def hostCopyPath (h : ChHost) (root : String) (prior : List Ev)
    (f : String) : List Ev × Option CErr :=
  if isLink h f then
    if pathWrittenIn
        (prior ++ (hostWarn h f ++ [Ev.mkdirsHost (pydirname (destFor root f))]))
        (destFor root f) then
      (hostWarn h f ++ [Ev.mkdirsHost (pydirname (destFor root f))],
        some (CErr.destLinkExists (destFor root f)))
    else
      (hostWarn h f ++ [Ev.mkdirsHost (pydirname (destFor root f))] ++
        [Ev.copyHostLink (destFor root f)], none)
  else
    if hostExists h f then
      (hostWarn h f ++ [Ev.mkdirsHost (pydirname (destFor root f))] ++
        [Ev.copyHostFile (destFor root f)], none)
    else
      (hostWarn h f ++ [Ev.mkdirsHost (pydirname (destFor root f))],
        some (CErr.copySourceMissing f))

/-- A Python `for` loop whose body appends events and whose first uncaught
exception aborts it: run `step` on each element in order, threading the
event history, stopping at the first error. -/
def stepSeq {α : Type} (step : List Ev → α → List Ev × Option CErr) :
    List Ev → List α → List Ev × Option CErr
  | _, [] => ([], none)
  | prior, x :: xs =>
    if (step prior x).2.isSome then step prior x
    else
      ((step prior x).1 ++ (stepSeq step (prior ++ (step prior x).1) xs).1,
        (stepSeq step (prior ++ (step prior x).1) xs).2)

/-- Source line 104: the loop over `find_all_links(ff.path)`. -/
def hostCopyChain (h : ChHost) (root : String) (prior : List Ev)
    (fs : List String) : List Ev × Option CErr :=
  stepSeq (fun pr f => hostCopyPath h root pr f) prior fs

/-- Source line 103: the loop over a package's files. -/
def hostCopyFiles (h : ChHost) (root : String) (prior : List Ev)
    (ffs : List String) : List Ev × Option CErr :=
  stepSeq (fun pr ff => hostCopyChain h root pr (find_all_links h ff)) prior ffs

/-- Source line 102: the loop over the not-packed packages. -/
def hostCopyPkgs (h : ChHost) (root : String) (prior : List Ev)
    (pkgs : List ChPkg) : List Ev × Option CErr :=
  stepSeq (fun pr pkg => hostCopyFiles h root pr pkg.files) prior pkgs

/-- Source lines 94-118, the Host Completion Copier stage: nothing
happens when every package was packed; otherwise the stderr block is
written and the not-packed packages are processed in order. -/
def hostStage (h : ChHost) (root : String) (prior : List Ev)
    (packages : List ChPkg) : List Ev × Option CErr :=
  if (packages.filter (fun pkg => !pkg.packfiles)).isEmpty then ([], none)
  else
    (Ev.warnNotPacked ::
      (hostCopyPkgs h root (prior ++ [Ev.warnNotPacked])
        (packages.filter (fun pkg => !pkg.packfiles))).1,
      (hostCopyPkgs h root (prior ++ [Ev.warnNotPacked])
        (packages.filter (fun pkg => !pkg.packfiles))).2)

/-- Source lines 121-129, the Archive Validator/Extractor stage: abort
when any member name contains `..`; otherwise extract the members under
`DATA/`, their names stripped of that prefix, into the root. -/
def extractStage (root : String) (members : List String) :
    List Ev × Option CErr :=
  if members.any containsDotDot then ([], some CErr.unsafeArchive)
  else
    (((members.filter (fun m => sStartsWith m "DATA/")).map
      (fun m => Ev.extractTo (pjoin root (sdrop m 5)))), none)

/-- Source lines 135-147, body for one `ldd` output line: crash with
`AttributeError` when the regex does not match; skip dependencies missing
on the host; otherwise ensure the parent directory and copy the
dependency unless its destination already exists. -/
def depCopyLine (h : ChHost) (root : String) (prior : List Ev)
    (l : String) : List Ev × Option CErr :=
  match matchLddLine l with
  | none => ([], some (CErr.lddNoMatch l))
  | some f =>
    if !hostExists h f then ([], none)
    else
      if pathWrittenIn (prior ++ [Ev.mkdirsDep (pydirname (destFor root f))])
          (destFor root f) then
        ([Ev.mkdirsDep (pydirname (destFor root f))], none)
      else
        ([Ev.mkdirsDep (pydirname (destFor root f)),
          Ev.copyDep (destFor root f)], none)

/-- Source line 135: the loop over the subprocess's stdout lines. -/
def depCopyLines (h : ChHost) (root : String) (prior : List Ev)
    (ls : List String) : List Ev × Option CErr :=
  stepSeq (fun pr l => depCopyLine h root pr l) prior ls

/-- Source lines 151-154: guarantee `bin/sh` under the root — ensure
`bin`, then copy the host's `/bin/sh` unless the destination exists
(`shutil.copy` raising `IOError` when the host has no `/bin/sh`). -/
def binShStage (h : ChHost) (root : String) (prior : List Ev) :
    List Ev × Option CErr :=
  if pathWrittenIn (prior ++ [Ev.mkdirsBin (pjoin root "bin")])
      (pjoin root "bin/sh") then
    ([Ev.mkdirsBin (pjoin root "bin")], none)
  else if hostExists h "/bin/sh" then
    ([Ev.mkdirsBin (pjoin root "bin"), Ev.copyBinSh (pjoin root "bin/sh")],
      none)
  else
    ([Ev.mkdirsBin (pjoin root "bin")], some (CErr.copySourceMissing "/bin/sh"))

/-- Source line 160: the destination the Working-Directory Reconciler
ensures for a recorded directory — `os.path.join(root, directory[1:])`,
the first character dropped unconditionally. -/
def wdirDest (root d : String) : String := pjoin root (sdrop d 1)

/-- Source lines 27-54 and 159-160, the Working-Directory Reconciler:
when the pack has no `METADATA/trace.sqlite3`, `list_directories` warns
and returns the empty set; otherwise `makedir` runs on `wdirDest` for
every recorded working directory. -/
def wdirStage (root : String) : Option (List String) → List Ev
  | none => [Ev.warnNoTrace]
  | some ds => ds.map (fun d => Ev.mkdirsWdir (wdirDest root d))

/-- Source lines 73-178: the whole `create_chroot`, as the ordered event
trace on the target directory paired with the fatal outcome, if any.
Stages run in the source's order: target/root creation, Host Completion
Copier, archive validation and extraction, dependency resolution, the
`ldd` exit-status assertion, the `bin/sh` guarantee, working-directory
reconciliation, script generation. -/
def create_chroot (cfg : ChConfig) : List Ev × Option CErr :=
  if cfg.targetExists then ([], some CErr.targetExists)
  else
    let root := rootOf cfg.target
    let e0 : List Ev := [Ev.mkTarget cfg.target, Ev.mkRoot root]
    match hostStage cfg.host root e0 cfg.packages with
    | (e1, some r) => (e0 ++ e1, some r)
    | (e1, none) =>
      match extractStage root cfg.packMembers with
      | (e2, some r) => (e0 ++ e1 ++ e2, some r)
      | (e2, none) =>
        match depCopyLines cfg.host root (e0 ++ e1 ++ e2) cfg.lddOutput with
        | (e3, some r) => (e0 ++ e1 ++ e2 ++ e3, some r)
        | (e3, none) =>
          if cfg.lddExit ≠ 0 then
            (e0 ++ e1 ++ e2 ++ e3, some (CErr.lddFailed cfg.lddExit))
          else
            match binShStage cfg.host root (e0 ++ e1 ++ e2 ++ e3) with
            | (e4, some r) => (e0 ++ e1 ++ e2 ++ e3 ++ e4, some r)
            | (e4, none) =>
              let e5 := wdirStage root cfg.traceDirs
              (e0 ++ e1 ++ e2 ++ e3 ++ e4 ++ e5 ++
                [Ev.scriptOut (scriptContent root cfg.runs)], none)

/-! ## Classification of the events each stage can produce -/

/-- The position of an event's code site in the source's control flow:
target/root creation (0), Host Completion Copier (1), extraction (2),
dependency copies (3), `bin/sh` guarantee (4), working-directory
reconciliation (5), script generation (6). -/
def stageIdx : Ev → Nat
  | Ev.mkTarget _ => 0
  | Ev.mkRoot _ => 0
  | Ev.warnNotPacked => 1
  | Ev.warnMissing _ => 1
  | Ev.mkdirsHost _ => 1
  | Ev.copyHostLink _ => 1
  | Ev.copyHostFile _ => 1
  | Ev.extractTo _ => 2
  | Ev.mkdirsDep _ => 3
  | Ev.copyDep _ => 3
  | Ev.mkdirsBin _ => 4
  | Ev.copyBinSh _ => 4
  | Ev.warnNoTrace => 5
  | Ev.mkdirsWdir _ => 5
  | Ev.scriptOut _ => 6

/-- The events the host copier can produce for one chain path `f`. -/
def hostEvFor (root f : String) (e : Ev) : Prop :=
  e = Ev.warnMissing f ∨ e = Ev.mkdirsHost (pydirname (destFor root f)) ∨
  e = Ev.copyHostLink (destFor root f) ∨ e = Ev.copyHostFile (destFor root f)

/-- Everything a `stepSeq` loop emits comes from the body run on some
element of the list. -/
theorem stepSeq_events {α : Type} (step : List Ev → α → List Ev × Option CErr)
    (P : α → Ev → Prop)
    (hstep : ∀ prior x, ∀ e ∈ (step prior x).1, P x e) :
    ∀ (prior : List Ev) (xs : List α), ∀ e ∈ (stepSeq step prior xs).1,
      ∃ x ∈ xs, P x e := by
  intro prior xs
  induction xs generalizing prior with
  | nil => intro e he; simp [stepSeq] at he
  | cons x xs ih =>
    intro e he
    unfold stepSeq at he
    split at he
    · exact ⟨x, List.mem_cons_self x xs, hstep prior x e he⟩
    · rw [List.mem_append] at he
      rcases he with he | he
      · exact ⟨x, List.mem_cons_self x xs, hstep prior x e he⟩
      · obtain ⟨y, hy, hev⟩ := ih (prior ++ (step prior x).1) e he
        exact ⟨y, List.mem_cons_of_mem x hy, hev⟩

theorem hostWarn_eq (h : ChHost) (f : String) :
    ∀ e ∈ hostWarn h f, e = Ev.warnMissing f := by
  intro e he
  unfold hostWarn at he
  split at he <;> simp at he
  exact he

theorem hostCopyPath_events (h : ChHost) (root : String) (prior : List Ev)
    (f : String) : ∀ e ∈ (hostCopyPath h root prior f).1, hostEvFor root f e := by
  intro e he
  unfold hostCopyPath at he
  split at he <;> split at he <;>
    simp only [List.mem_append, List.mem_singleton] at he <;>
    unfold hostEvFor
  · rcases he with he | he
    · exact Or.inl (hostWarn_eq h f e he)
    · exact Or.inr (Or.inl he)
  · rcases he with (he | he) | he
    · exact Or.inl (hostWarn_eq h f e he)
    · exact Or.inr (Or.inl he)
    · exact Or.inr (Or.inr (Or.inl he))
  · rcases he with (he | he) | he
    · exact Or.inl (hostWarn_eq h f e he)
    · exact Or.inr (Or.inl he)
    · exact Or.inr (Or.inr (Or.inr he))
  · rcases he with he | he
    · exact Or.inl (hostWarn_eq h f e he)
    · exact Or.inr (Or.inl he)

theorem hostCopyChain_events (h : ChHost) (root : String) (prior : List Ev)
    (fs : List String) :
    ∀ e ∈ (hostCopyChain h root prior fs).1, ∃ f ∈ fs, hostEvFor root f e := by
  intro e he
  unfold hostCopyChain at he
  exact stepSeq_events _ _ (fun pr f => hostCopyPath_events h root pr f)
    prior fs e he

theorem hostCopyFiles_events (h : ChHost) (root : String) (prior : List Ev)
    (ffs : List String) :
    ∀ e ∈ (hostCopyFiles h root prior ffs).1,
      ∃ ff ∈ ffs, ∃ f ∈ find_all_links h ff, hostEvFor root f e := by
  intro e he
  unfold hostCopyFiles at he
  refine stepSeq_events _
    (fun ff e => ∃ f ∈ find_all_links h ff, hostEvFor root f e)
    ?_ prior ffs e he
  intro pr ff e2 hin
  exact hostCopyChain_events h root pr (find_all_links h ff) e2 hin

theorem hostCopyPkgs_events (h : ChHost) (root : String) (prior : List Ev)
    (pkgs : List ChPkg) :
    ∀ e ∈ (hostCopyPkgs h root prior pkgs).1,
      ∃ pkg ∈ pkgs, ∃ ff ∈ pkg.files, ∃ f ∈ find_all_links h ff,
        hostEvFor root f e := by
  intro e he
  unfold hostCopyPkgs at he
  refine stepSeq_events _
    (fun pkg e => ∃ ff ∈ pkg.files, ∃ f ∈ find_all_links h ff,
      hostEvFor root f e)
    ?_ prior pkgs e he
  intro pr pkg e2 hin
  exact hostCopyFiles_events h root pr pkg.files e2 hin

theorem hostStage_events (h : ChHost) (root : String) (prior : List Ev)
    (packages : List ChPkg) :
    ∀ e ∈ (hostStage h root prior packages).1,
      e = Ev.warnNotPacked ∨
      ∃ pkg ∈ packages, pkg.packfiles = false ∧
        ∃ ff ∈ pkg.files, ∃ f ∈ find_all_links h ff, hostEvFor root f e := by
  intro e he
  unfold hostStage at he
  split at he
  · simp at he
  · simp only [List.mem_cons] at he
    rcases he with he | he
    · exact Or.inl he
    · obtain ⟨pkg, hpkg, hev⟩ :=
        hostCopyPkgs_events h root (prior ++ [Ev.warnNotPacked])
          (packages.filter (fun pkg => !pkg.packfiles)) e he
      rw [List.mem_filter] at hpkg
      exact Or.inr ⟨pkg, hpkg.1, by simpa using hpkg.2, hev⟩

theorem extractStage_events (root : String) (members : List String) :
    ∀ e ∈ (extractStage root members).1,
      ∃ m ∈ members, sStartsWith m "DATA/" = true ∧
        e = Ev.extractTo (pjoin root (sdrop m 5)) := by
  intro e he
  unfold extractStage at he
  split at he
  · simp at he
  · simp only [List.mem_map, List.mem_filter] at he
    obtain ⟨m, ⟨hm, hdata⟩, rfl⟩ := he
    exact ⟨m, hm, hdata, rfl⟩

/-- When the archive check fires, the extraction stage has performed
nothing. -/
theorem extractStage_fails (root : String) (members : List String)
    (hm : members.any containsDotDot = true) :
    extractStage root members = ([], some CErr.unsafeArchive) := by
  unfold extractStage
  rw [if_pos hm]

theorem depCopyLine_events (h : ChHost) (root : String) (prior : List Ev)
    (l : String) :
    ∀ e ∈ (depCopyLine h root prior l).1,
      ∃ f, matchLddLine l = some f ∧
        (e = Ev.mkdirsDep (pydirname (destFor root f)) ∨
         e = Ev.copyDep (destFor root f)) := by
  intro e he
  unfold depCopyLine at he
  split at he
  · simp at he
  · next f hf =>
    split at he
    · simp at he
    · split at he <;>
        simp only [List.mem_cons, List.mem_singleton, List.not_mem_nil,
          or_false] at he
      · exact ⟨f, hf, Or.inl he⟩
      · rcases he with he | he
        · exact ⟨f, hf, Or.inl he⟩
        · exact ⟨f, hf, Or.inr he⟩

theorem depCopyLines_events (h : ChHost) (root : String) (prior : List Ev)
    (ls : List String) :
    ∀ e ∈ (depCopyLines h root prior ls).1,
      ∃ l ∈ ls, ∃ f, matchLddLine l = some f ∧
        (e = Ev.mkdirsDep (pydirname (destFor root f)) ∨
         e = Ev.copyDep (destFor root f)) := by
  intro e he
  unfold depCopyLines at he
  refine stepSeq_events _
    (fun l e => ∃ f, matchLddLine l = some f ∧
      (e = Ev.mkdirsDep (pydirname (destFor root f)) ∨
       e = Ev.copyDep (destFor root f)))
    ?_ prior ls e he
  intro pr l e2 hin
  exact depCopyLine_events h root pr l e2 hin

theorem binShStage_events (h : ChHost) (root : String) (prior : List Ev) :
    ∀ e ∈ (binShStage h root prior).1,
      e = Ev.mkdirsBin (pjoin root "bin") ∨
      e = Ev.copyBinSh (pjoin root "bin/sh") := by
  intro e he
  unfold binShStage at he
  split at he
  · simp only [List.mem_singleton] at he
    exact Or.inl he
  · split at he <;>
      simp only [List.mem_cons, List.mem_singleton, List.not_mem_nil,
        or_false] at he
    · rcases he with he | he
      · exact Or.inl he
      · exact Or.inr he
    · exact Or.inl he

theorem wdirStage_events (root : String) (td : Option (List String)) :
    ∀ e ∈ wdirStage root td,
      e = Ev.warnNoTrace ∨
      ∃ ds, td = some ds ∧ ∃ d ∈ ds, e = Ev.mkdirsWdir (wdirDest root d) := by
  intro e he
  cases td with
  | none => simp [wdirStage] at he; exact Or.inl he
  | some ds =>
    simp only [wdirStage, List.mem_map] at he
    obtain ⟨d, hd, rfl⟩ := he
    exact Or.inr ⟨ds, rfl, d, hd, rfl⟩

/-! ## Stage ordering of the event trace -/

/-- Events ordered by the position of their code site in the pipeline. -/
def stageLE (a b : Ev) : Prop := stageIdx a ≤ stageIdx b

theorem hostEvFor_stage (root f : String) (e : Ev) (h : hostEvFor root f e) :
    stageIdx e = 1 := by
  rcases h with rfl | rfl | rfl | rfl <;> rfl

theorem hostStage_stage (h : ChHost) (root : String) (prior : List Ev)
    (packages : List ChPkg) :
    ∀ e ∈ (hostStage h root prior packages).1, stageIdx e = 1 := by
  intro e he
  rcases hostStage_events h root prior packages e he with rfl | ⟨_, _, _, _, _, _, _, hev⟩
  · rfl
  · exact hostEvFor_stage _ _ _ hev

theorem extractStage_stage (root : String) (members : List String) :
    ∀ e ∈ (extractStage root members).1, stageIdx e = 2 := by
  intro e he
  obtain ⟨m, _, _, rfl⟩ := extractStage_events root members e he
  rfl

theorem depCopyLines_stage (h : ChHost) (root : String) (prior : List Ev)
    (ls : List String) :
    ∀ e ∈ (depCopyLines h root prior ls).1, stageIdx e = 3 := by
  intro e he
  obtain ⟨_, _, _, _, hev⟩ := depCopyLines_events h root prior ls e he
  rcases hev with rfl | rfl <;> rfl

theorem binShStage_stage (h : ChHost) (root : String) (prior : List Ev) :
    ∀ e ∈ (binShStage h root prior).1, stageIdx e = 4 := by
  intro e he
  rcases binShStage_events h root prior e he with rfl | rfl <;> rfl

theorem wdirStage_stage (root : String) (td : Option (List String)) :
    ∀ e ∈ wdirStage root td, stageIdx e = 5 := by
  intro e he
  rcases wdirStage_events root td e he with rfl | ⟨_, _, _, _, rfl⟩ <;> rfl

theorem pairwise_const (l : List Ev) (k : Nat)
    (h : ∀ e ∈ l, stageIdx e = k) : l.Pairwise stageLE := by
  induction l with
  | nil => exact List.Pairwise.nil
  | cons x xs ih =>
    refine List.Pairwise.cons ?_ (ih (fun e he => h e (List.mem_cons_of_mem x he)))
    intro y hy
    unfold stageLE
    rw [h x (List.mem_cons_self x xs), h y (List.mem_cons_of_mem x hy)]

theorem pairwise_of_blocks (blocks : List (Nat × List Ev))
    (hconst : ∀ b ∈ blocks, ∀ e ∈ b.2, stageIdx e = b.1)
    (hsort : (blocks.map Prod.fst).Pairwise (fun a b => a ≤ b)) :
    ((blocks.map Prod.snd).join).Pairwise stageLE := by
  induction blocks with
  | nil => exact List.Pairwise.nil
  | cons b bs ih =>
    simp only [List.map_cons, List.join_cons]
    rw [List.pairwise_append]
    refine ⟨pairwise_const b.2 b.1
      (hconst b (List.mem_cons_self b bs)), ?_, ?_⟩
    · refine ih (fun b2 hb2 => hconst b2 (List.mem_cons_of_mem b hb2)) ?_
      simp only [List.map_cons] at hsort
      exact hsort.of_cons
    · intro x hx y hy
      rw [List.mem_join] at hy
      obtain ⟨l2, hl2, hyl2⟩ := hy
      rw [List.mem_map] at hl2
      obtain ⟨b2, hb2, rfl⟩ := hl2
      unfold stageLE
      rw [hconst b (List.mem_cons_self b bs) x hx, hconst b2 (List.mem_cons_of_mem b hb2) y hyl2]
      simp only [List.map_cons, List.pairwise_cons] at hsort
      exact hsort.1 b2.1 (List.mem_map_of_mem Prod.fst hb2)

/-- C5 (as amended): the pipeline stages execute in the source's order —
Host Completion Copier first, then archive validation and extraction, then
the Interpreter Dependency Resolver, then the `bin/sh` guarantee, then the
Working-Directory Reconciler, then the Script Generator: in every trace of
`create_chroot` the events appear in nondecreasing `stageIdx` order.  (The
original claim's order, extraction before the Host Completion Copier, is
refuted by `claim_C5_counterexample`.) -/
theorem claim_C5_order (cfg : ChConfig) :
    ((create_chroot cfg).1).Pairwise stageLE := by
  have he0 : ∀ e ∈ [Ev.mkTarget cfg.target, Ev.mkRoot (rootOf cfg.target)],
      stageIdx e = 0 := by
    intro e he
    fin_cases he <;> rfl
  unfold create_chroot
  split
  · exact List.Pairwise.nil
  · simp only []
    split
    next x e1 r1 heq1 =>
      have h1 : ∀ e ∈ e1, stageIdx e = 1 := fun e he =>
        hostStage_stage _ _ _ _ e (by rw [heq1]; exact he)
      simpa using pairwise_of_blocks
        [(0, [Ev.mkTarget cfg.target, Ev.mkRoot (rootOf cfg.target)]), (1, e1)]
        (by intro b hb; fin_cases hb
            · exact he0
            · exact h1)
        (by simp [List.pairwise_cons])
    next x e1 heq1 =>
      have h1 : ∀ e ∈ e1, stageIdx e = 1 := fun e he =>
        hostStage_stage _ _ _ _ e (by rw [heq1]; exact he)
      split
      next x2 e2 r2 heq2 =>
        have h2 : ∀ e ∈ e2, stageIdx e = 2 := fun e he =>
          extractStage_stage _ _ e (by rw [heq2]; exact he)
        simpa using pairwise_of_blocks
          [(0, [Ev.mkTarget cfg.target, Ev.mkRoot (rootOf cfg.target)]),
           (1, e1), (2, e2)]
          (by intro b hb; fin_cases hb
              · exact he0
              · exact h1
              · exact h2)
          (by simp [List.pairwise_cons])
      next x2 e2 heq2 =>
        have h2 : ∀ e ∈ e2, stageIdx e = 2 := fun e he =>
          extractStage_stage _ _ e (by rw [heq2]; exact he)
        split
        next x3 e3 r3 heq3 =>
          have h3 : ∀ e ∈ e3, stageIdx e = 3 := fun e he =>
            depCopyLines_stage _ _ _ _ e (by rw [heq3]; exact he)
          simpa using pairwise_of_blocks
            [(0, [Ev.mkTarget cfg.target, Ev.mkRoot (rootOf cfg.target)]),
             (1, e1), (2, e2), (3, e3)]
            (by intro b hb; fin_cases hb
                · exact he0
                · exact h1
                · exact h2
                · exact h3)
            (by simp [List.pairwise_cons])
        next x3 e3 heq3 =>
          have h3 : ∀ e ∈ e3, stageIdx e = 3 := fun e he =>
            depCopyLines_stage _ _ _ _ e (by rw [heq3]; exact he)
          split
          · simpa using pairwise_of_blocks
              [(0, [Ev.mkTarget cfg.target, Ev.mkRoot (rootOf cfg.target)]),
               (1, e1), (2, e2), (3, e3)]
              (by intro b hb; fin_cases hb
                  · exact he0
                  · exact h1
                  · exact h2
                  · exact h3)
              (by simp [List.pairwise_cons])
          · split
            next x4 e4 r4 heq4 =>
              have h4 : ∀ e ∈ e4, stageIdx e = 4 := fun e he =>
                binShStage_stage _ _ _ e (by rw [heq4]; exact he)
              simpa using pairwise_of_blocks
                [(0, [Ev.mkTarget cfg.target, Ev.mkRoot (rootOf cfg.target)]),
                 (1, e1), (2, e2), (3, e3), (4, e4)]
                (by intro b hb; fin_cases hb
                    · exact he0
                    · exact h1
                    · exact h2
                    · exact h3
                    · exact h4)
                (by simp [List.pairwise_cons])
            next x4 e4 heq4 =>
              have h4 : ∀ e ∈ e4, stageIdx e = 4 := fun e he =>
                binShStage_stage _ _ _ e (by rw [heq4]; exact he)
              have h5 : ∀ e ∈ wdirStage (rootOf cfg.target) cfg.traceDirs,
                  stageIdx e = 5 := wdirStage_stage _ _
              have h6 : ∀ e ∈
                  [Ev.scriptOut (scriptContent (rootOf cfg.target) cfg.runs)],
                  stageIdx e = 6 := by
                intro e he; fin_cases he; rfl
              simpa using pairwise_of_blocks
                [(0, [Ev.mkTarget cfg.target, Ev.mkRoot (rootOf cfg.target)]),
                 (1, e1), (2, e2), (3, e3), (4, e4),
                 (5, wdirStage (rootOf cfg.target) cfg.traceDirs),
                 (6, [Ev.scriptOut (scriptContent (rootOf cfg.target) cfg.runs)])]
                (by intro b hb; fin_cases hb
                    · exact he0
                    · exact h1
                    · exact h2
                    · exact h3
                    · exact h4
                    · exact h5
                    · exact h6)
                (by simp [List.pairwise_cons])

/-! ## Script and extraction markers, and the fatality of `ldd` failure -/

/-- Is this event the writing of `script.sh`? -/
def isScriptEv : Ev → Bool
  | Ev.scriptOut _ => true
  | _ => false

/-- Is this event the extraction of an archive member? -/
def isExtractEv : Ev → Bool
  | Ev.extractTo _ => true
  | _ => false

theorem isScriptEv_false_of_stage (e : Ev) (k : Nat) (hk : stageIdx e = k)
    (h6 : k ≠ 6) : isScriptEv e = false := by
  cases e <;> simp_all [stageIdx, isScriptEv]

theorem isExtractEv_false_of_stage (e : Ev) (k : Nat) (hk : stageIdx e = k)
    (h2 : k ≠ 2) : isExtractEv e = false := by
  cases e <;> simp_all [stageIdx, isExtractEv]

theorem noScript_of_stage (l : List Ev) (k : Nat)
    (h : ∀ e ∈ l, stageIdx e = k) (hk : k ≠ 6) :
    l.any isScriptEv = false := by
  rw [List.any_eq_false]
  intro e he
  rw [isScriptEv_false_of_stage e k (h e he) hk]
  simp

/-- C7: a non-zero exit status of the dependency-listing subprocess makes
`create_chroot` fail fatally (the `assert p.returncode == 0` at line 150,
or an exception raised even earlier): the outcome is an error and no
`script.sh` is ever written, so reconstruction never continues past a
failed dependency listing. -/
theorem claim_C7_ldd_failure_fatal (cfg : ChConfig)
    (hne : cfg.lddExit ≠ 0) :
    ((create_chroot cfg).2).isSome = true ∧
      ((create_chroot cfg).1).any isScriptEv = false := by
  have he0 : ∀ e ∈ [Ev.mkTarget cfg.target, Ev.mkRoot (rootOf cfg.target)],
      stageIdx e = 0 := by
    intro e he
    fin_cases he <;> rfl
  unfold create_chroot
  split
  · exact ⟨rfl, rfl⟩
  · simp only []
    split
    next x e1 r1 heq1 =>
      have h1 : ∀ e ∈ e1, stageIdx e = 1 := fun e he =>
        hostStage_stage _ _ _ _ e (by rw [heq1]; exact he)
      refine ⟨rfl, ?_⟩
      simp only [List.any_append]
      rw [noScript_of_stage _ 0 he0 (by decide),
        noScript_of_stage _ 1 h1 (by decide)]
      rfl
    next x e1 heq1 =>
      have h1 : ∀ e ∈ e1, stageIdx e = 1 := fun e he =>
        hostStage_stage _ _ _ _ e (by rw [heq1]; exact he)
      split
      next x2 e2 r2 heq2 =>
        have h2 : ∀ e ∈ e2, stageIdx e = 2 := fun e he =>
          extractStage_stage _ _ e (by rw [heq2]; exact he)
        refine ⟨rfl, ?_⟩
        simp only [List.any_append]
        rw [noScript_of_stage _ 0 he0 (by decide),
          noScript_of_stage _ 1 h1 (by decide),
          noScript_of_stage _ 2 h2 (by decide)]
        rfl
      next x2 e2 heq2 =>
        have h2 : ∀ e ∈ e2, stageIdx e = 2 := fun e he =>
          extractStage_stage _ _ e (by rw [heq2]; exact he)
        split
        next x3 e3 r3 heq3 =>
          have h3 : ∀ e ∈ e3, stageIdx e = 3 := fun e he =>
            depCopyLines_stage _ _ _ _ e (by rw [heq3]; exact he)
          refine ⟨rfl, ?_⟩
          simp only [List.any_append]
          rw [noScript_of_stage _ 0 he0 (by decide),
            noScript_of_stage _ 1 h1 (by decide),
            noScript_of_stage _ 2 h2 (by decide),
            noScript_of_stage _ 3 h3 (by decide)]
          rfl
        next x3 e3 heq3 =>
          have h3 : ∀ e ∈ e3, stageIdx e = 3 := fun e he =>
            depCopyLines_stage _ _ _ _ e (by rw [heq3]; exact he)
          refine ⟨rfl, ?_⟩
          simp only [List.any_append]
          rw [noScript_of_stage _ 0 he0 (by decide),
            noScript_of_stage _ 1 h1 (by decide),
            noScript_of_stage _ 2 h2 (by decide),
            noScript_of_stage _ 3 h3 (by decide)]
          rfl

theorem noExtract_of_stage (l : List Ev) (k : Nat)
    (h : ∀ e ∈ l, stageIdx e = k) (hk : k ≠ 2) :
    l.any isExtractEv = false := by
  rw [List.any_eq_false]
  intro e he
  rw [isExtractEv_false_of_stage e k (h e he) hk]
  simp

/-! ## Concrete configurations exercising the pipeline -/

/-- A pack whose archive holds a traversal member (`bad/../x`) while a
package with `packfiles = false` refers to the host file `/lib/a`. -/
def cfgC1 : ChConfig :=
  { target := "/t", targetExists := false, runs := [],
    packages := [{ name := "p", packfiles := false, files := ["/lib/a"] }],
    packMembers := ["DATA/ok", "bad/../x"], lddOutput := [], lddExit := 0,
    traceDirs := some [],
    host := { hostPaths := ["/lib/a", "/bin/sh"], symlinks := [], chains := [] } }

/-- C1 counterexample: on `cfgC1` the run does fail with `UnsafeArchive`
(the member `bad/../x` contains a traversal segment), but a file has
already been created under the target root's data subtree by the Host
Completion Copier, which the source runs *before* opening the archive —
refuting "no file or directory is created under the target root's data
subtree (the check runs before any extraction or copying begins)". -/
theorem claim_C1_counterexample :
    (create_chroot cfgC1).2 = some CErr.unsafeArchive ∧
      containsDotDot "bad/../x" = true ∧
      "bad/../x" ∈ cfgC1.packMembers ∧
      Ev.copyHostFile "/t/root/lib/a" ∈ (create_chroot cfgC1).1 := by decide

/-- C1 (as amended): when a member name contains `..` (and the stages that
the source runs earlier — target creation and host completion — did not
themselves fail), `create_chroot` fails with `UnsafeArchive` and no
archive member is extracted; however the host-completion copying for
unpacked packages has already run. -/
theorem claim_C1_amended (cfg : ChConfig)
    (htarget : cfg.targetExists = false)
    (hhost : (hostStage cfg.host (rootOf cfg.target)
      [Ev.mkTarget cfg.target, Ev.mkRoot (rootOf cfg.target)]
      cfg.packages).2 = none)
    (hmem : cfg.packMembers.any containsDotDot = true) :
    (create_chroot cfg).2 = some CErr.unsafeArchive ∧
      ((create_chroot cfg).1).any isExtractEv = false := by
  have he0 : ∀ e ∈ [Ev.mkTarget cfg.target, Ev.mkRoot (rootOf cfg.target)],
      stageIdx e = 0 := by
    intro e he
    fin_cases he <;> rfl
  unfold create_chroot
  rw [if_neg (by simp [htarget])]
  simp only []
  split
  next x e1 r1 heq1 =>
    rw [heq1] at hhost
    simp at hhost
  next x e1 heq1 =>
    have h1 : ∀ e ∈ e1, stageIdx e = 1 := fun e he =>
      hostStage_stage _ _ _ _ e (by rw [heq1]; exact he)
    rw [extractStage_fails (rootOf cfg.target) cfg.packMembers hmem]
    refine ⟨rfl, ?_⟩
    simp only [List.any_append]
    rw [noExtract_of_stage _ 0 he0 (by decide),
      noExtract_of_stage _ 1 h1 (by decide)]
    rfl

/-- C1 witness: `claim_C1_amended` applied to `cfgC1`. -/
theorem claim_C1_witness :
    (create_chroot cfgC1).2 = some CErr.unsafeArchive ∧
      ((create_chroot cfgC1).1).any isExtractEv = false :=
  claim_C1_amended cfgC1 (by decide) (by decide) (by decide)

/-- A package with `packfiles = false` whose file `/lib/miss` does not
exist on the host (and is not a symlink). -/
def cfgC2 : ChConfig :=
  { target := "/t", targetExists := false, runs := [],
    packages := [{ name := "p", packfiles := false, files := ["/lib/miss"] }],
    packMembers := [], lddOutput := [], lddExit := 0, traceDirs := some [],
    host := { hostPaths := ["/bin/sh"], symlinks := [], chains := [] } }

/-- C2: the failing input evaluated.  The `Missing file` warning is
written, but the loop then still reaches `shutil.copy(f, dest)` (there is
no `continue` after the warning and `os.path.islink` is false for a
missing file), which raises `IOError` and aborts `create_chroot` — the
claim's "execution continues past that path (reconstruction is never
aborted by a missing host file)" does not hold. -/
theorem claim_C2_bug :
    create_chroot cfgC2 =
      ([Ev.mkTarget "/t", Ev.mkRoot "/t/root", Ev.warnNotPacked,
        Ev.warnMissing "/lib/miss", Ev.mkdirsHost "/t/root/lib"],
        some (CErr.copySourceMissing "/lib/miss")) ∧
      Ev.warnMissing "/lib/miss" ∈ (create_chroot cfgC2).1 := by decide

/-- A run of the dependency resolver over an `ldd` output line that does
not match the regex (`ldd` prints `\tstatically linked` for a static
`/bin/sh`). -/
def cfgC3 : ChConfig :=
  { target := "/t", targetExists := false, runs := [], packages := [],
    packMembers := [], lddOutput := ["\tstatically linked"], lddExit := 0,
    traceDirs := some [],
    host := { hostPaths := ["/bin/sh"], symlinks := [], chains := [] } }

/-- C3: the failing input evaluated.  `fmt.match` returns `None` on a line
that does not match the pattern, and the source immediately calls
`m.group(1)`, so the non-matching line is not ignored: the loop dies with
an `AttributeError` that aborts `create_chroot`. -/
theorem claim_C3_bug :
    matchLddLine "\tstatically linked" = none ∧
      create_chroot cfgC3 =
        ([Ev.mkTarget "/t", Ev.mkRoot "/t/root"],
          some (CErr.lddNoMatch "\tstatically linked")) := by decide

/-- Two files `/a` and `/b` of an unpacked package whose symlink chains
share the host symlink `/s`. -/
def cfgC4 : ChConfig :=
  { target := "/t", targetExists := false, runs := [],
    packages := [{ name := "p", packfiles := false, files := ["/a", "/b"] }],
    packMembers := [], lddOutput := [], lddExit := 0, traceDirs := some [],
    host :=
      { hostPaths := ["/a", "/b", "/s", "/bin/sh"],
        symlinks := [("/s", "/tgt")],
        chains := [("/a", ["/a", "/s"]), ("/b", ["/b", "/s"])] } }

/-- C4 counterexample: the second time the shared chain path `/s` (a
symlink) is processed, `os.symlink` hits the destination created the first
time and raises `FileExistsError`: copying the same chain path twice does
error in the symlink case, and no destination-existence check precedes the
write. -/
theorem claim_C4_counterexample :
    (create_chroot cfgC4).2 = some (CErr.destLinkExists "/t/root/s") ∧
      Ev.copyHostLink "/t/root/s" ∈ (create_chroot cfgC4).1 := by decide

/-- C4 (as amended): for a chain path that exists on the host and is not a
symlink, the copier's body never raises, whatever was already written —
`shutil.copy` silently overwrites — so copying the same regular-file path
twice is error-free; but there is no destination-existence check, and
re-copying a symlink path raises (see `claim_C4_counterexample`). -/
theorem claim_C4_amended (h : ChHost) (root : String) (prior : List Ev)
    (f : String) (hnl : isLink h f = false) (hex : hostExists h f = true) :
    (hostCopyPath h root prior f).2 = none := by
  unfold hostCopyPath
  rw [if_neg (by simp [hnl]), if_pos hex]

/-- C4 witness: `claim_C4_amended` on `cfgC4`'s host, re-copying the
regular file `/a` when its destination was already written. -/
theorem claim_C4_witness :
    (hostCopyPath cfgC4.host "/t/root"
      [Ev.copyHostFile "/t/root/a"] "/a").2 = none :=
  claim_C4_amended cfgC4.host "/t/root" [Ev.copyHostFile "/t/root/a"] "/a"
    (by decide) (by decide)

/-- A pack with one `DATA/` member and one unpacked package file. -/
def cfgC5 : ChConfig :=
  { target := "/t", targetExists := false, runs := [],
    packages := [{ name := "p", packfiles := false, files := ["/lib/a"] }],
    packMembers := ["DATA/ok"], lddOutput := [], lddExit := 0,
    traceDirs := some [],
    host := { hostPaths := ["/lib/a", "/bin/sh"], symlinks := [], chains := [] } }

/-- C5 counterexample: in the trace of `cfgC5` the Host Completion Copier
writes `/t/root/lib/a` (position 4) strictly before the extraction event
(position 5): extraction does not run first, and the copier does write
into the target root before extraction has completed. -/
theorem claim_C5_counterexample :
    (create_chroot cfgC5).2 = none ∧
      (create_chroot cfgC5).1.get? 4 = some (Ev.copyHostFile "/t/root/lib/a") ∧
      (create_chroot cfgC5).1.get? 5 = some (Ev.extractTo "/t/root/ok") := by
  decide

/-- A trace database recording the working directory `/../evil`. -/
def cfgC6 : ChConfig :=
  { target := "/t", targetExists := false, runs := [], packages := [],
    packMembers := [], lddOutput := [], lddExit := 0,
    traceDirs := some ["/../evil"],
    host := { hostPaths := ["/bin/sh"], symlinks := [], chains := [] } }

/-- C6 counterexample: the Working-Directory Reconciler runs `makedir` on
`/t/root/../evil` — a written path containing a parent-directory segment
that resolves outside the target root — because recorded trace paths are
never validated. -/
theorem claim_C6_counterexample :
    (create_chroot cfgC6).2 = none ∧
      Ev.mkdirsWdir "/t/root/../evil" ∈ (create_chroot cfgC6).1 ∧
      containsDotDot "/t/root/../evil" = true := by decide

/-- An `ldd` failure: the subprocess exits with status 1. -/
def cfgC7 : ChConfig :=
  { target := "/t", targetExists := false, runs := [], packages := [],
    packMembers := [], lddOutput := [], lddExit := 1, traceDirs := some [],
    host := { hostPaths := ["/bin/sh"], symlinks := [], chains := [] } }

/-- C7 witness: `claim_C7_ldd_failure_fatal` applied to `cfgC7`. -/
theorem claim_C7_witness :
    ((create_chroot cfgC7).2).isSome = true ∧
      ((create_chroot cfgC7).1).any isScriptEv = false :=
  claim_C7_ldd_failure_fatal cfgC7 (by decide)

/-! ## String-level path lemmas -/

theorem sdata_append (a b : String) : (a ++ b).data = a.data ++ b.data := rfl

theorem sext {a b : String} (h : a.data = b.data) : a = b :=
  congrArg String.mk h

theorem sdrop_data (s : String) (n : Nat) : (sdrop s n).data = s.data.drop n :=
  rfl

/-- A string starting with `/` but not `//` splits as `'/'` followed by a
tail that does not itself start with `/`. -/
theorem split_abs (d : String) (h1 : sStartsWith d "/" = true)
    (h2 : sStartsWith d "//" = false) :
    d.data = '/' :: (sdrop d 1).data ∧
      sStartsWith (sdrop d 1) "/" = false := by
  unfold sStartsWith at h1 h2 ⊢
  rw [List.isPrefixOf_iff_prefix] at h1
  cases hd : d.data with
  | nil =>
    rw [hd] at h1
    exact absurd h1 (by simp [show ("/" : String).data = ['/'] from rfl])
  | cons c t =>
    rw [hd] at h1
    have hc : c = '/' := by
      rw [show ("/" : String).data = ['/'] from rfl] at h1
      obtain ⟨u, hu⟩ := h1
      simpa using congrArg (fun l => l.head?) hu.symm
    subst hc
    refine ⟨by simp [sdrop_data, hd], ?_⟩
    rw [hd] at h2
    rw [show ("//" : String).data = ['/', '/'] from rfl] at h2
    simp only [List.isPrefixOf, beq_self_eq_true, Bool.true_and] at h2
    rw [sdrop_data, hd]
    simpa [show ("/" : String).data = ['/'] from rfl] using h2

/-- `os.path.join` on a relative second argument under a normal root. -/
theorem pjoin_rel (a b : String) (hb : sStartsWith b "/" = false)
    (ha : a ≠ "") (hae : sEndsWith a "/" = false) :
    pjoin a b = a ++ "/" ++ b := by
  unfold pjoin
  rw [if_neg (by simp [hb]), if_neg (by simp [ha, hae])]

/-- Stripping the single leading slash of a clean absolute path and joining
under the root is plain concatenation: `root ++ f`. -/
theorem destFor_clean (root f : String) (h1 : sStartsWith f "/" = true)
    (h2 : sStartsWith f "//" = false) (hroot : root ≠ "")
    (hre : sEndsWith root "/" = false) :
    destFor root f = root ++ f := by
  obtain ⟨hsplit, htail⟩ := split_abs f h1 h2
  unfold destFor
  rw [if_pos h1, pjoin_rel root (sdrop f 1) htail hroot hre]
  refine sext ?_
  rw [sdata_append, sdata_append, sdata_append, hsplit]
  simp [show ("/" : String).data = ['/'] from rfl]

/-! ## C10: the Working-Directory Reconciler and `directory[1:]` -/

/-- C10: the Working-Directory Reconciler ensures, for each recorded
directory `d`, the directory `os.path.join(root, d[1:])` — the first
character of `d` dropped unconditionally.  For an absolute recorded path
(one leading slash) this is the intended root-relative location
`root ++ d`; for a relative recorded path the created path is not the
root-relative location of `d`: the first character has been silently
lost. -/
theorem claim_C10_wdir_drop_first (root d : String) (hroot : root ≠ "")
    (hre : sEndsWith root "/" = false) :
    wdirDest root d = pjoin root (sdrop d 1) ∧
      (sStartsWith d "/" = true → sStartsWith d "//" = false →
        wdirDest root d = root ++ d) ∧
      (sStartsWith d "/" = false → d ≠ "" →
        wdirDest root d ≠ pjoin root d) := by
  refine ⟨rfl, ?_, ?_⟩
  · intro h1 h2
    have hwd : wdirDest root d = destFor root d := by
      unfold wdirDest destFor
      rw [if_pos h1]
    rw [hwd]
    exact destFor_clean root d h1 h2 hroot hre
  · intro h1 hne
    have hdlen : 1 ≤ d.data.length := by
      cases hd : d.data with
      | nil => exact absurd (sext (by simp [hd])) hne
      | cons c t => simp
    have hjoin : pjoin root d = root ++ "/" ++ d := pjoin_rel root d h1 hroot hre
    intro heq
    have hlenL : (wdirDest root d).data.length <
        root.data.length + 1 + d.data.length := by
      unfold wdirDest pjoin
      split
      · simp only [sdrop_data, List.length_drop]
        omega
      · split
        · next hcond => simp [hroot, hre] at hcond
        · simp only [sdata_append, List.length_append, sdrop_data,
            List.length_drop, show ("/" : String).data = ['/'] from rfl,
            List.length_singleton]
          omega
    have hlenR : (pjoin root d).data.length =
        root.data.length + 1 + d.data.length := by
      rw [hjoin]
      simp [sdata_append, show ("/" : String).data = ['/'] from rfl]
      omega
    rw [heq, hlenR] at hlenL
    omega

/-- C10 witness: `claim_C10_wdir_drop_first` at the root `/t/root` with the
absolute recorded directory `/var/empty` and the relative one `home`. -/
theorem claim_C10_witness :
    wdirDest "/t/root" "/var/empty" = "/t/root" ++ "/var/empty" ∧
      wdirDest "/t/root" "home" ≠ pjoin "/t/root" "home" :=
  ⟨(claim_C10_wdir_drop_first "/t/root" "/var/empty" (by decide)
      (by decide)).2.1 (by decide) (by decide),
   (claim_C10_wdir_drop_first "/t/root" "home" (by decide)
      (by decide)).2.2 (by decide) (by decide)⟩

/-! ## C8: the shape of the generated script -/

/-- Concatenation of a list of strings. -/
def concatAll : List String → String
  | [] => ""
  | s :: ss => s ++ concatAll ss

theorem strAppend_empty (a : String) : a ++ "" = a :=
  sext (by rw [sdata_append]; simp)

theorem foldl_append_concatAll {α : Type} (g : α → String) (xs : List α) :
    ∀ init : String,
      xs.foldl (fun acc x => acc ++ g x) init = init ++ concatAll (xs.map g) := by
  induction xs with
  | nil => intro init; simp [concatAll, strAppend_empty]
  | cons x xs ih =>
    intro init
    simp only [List.foldl_cons, List.map_cons, concatAll]
    rw [ih (init ++ g x), String.append_assoc]

/-- The script line of the claim, spelled out from its wording: the
`chroot --userspec=<uid>:<gid> <escaped root> /bin/sh -c <escaped cmd>`
format with `cmd = 'cd <escaped workingdir> && <escaped binary>
<escaped argv[1:]>'` (argument 0 replaced by the binary) and `uid`/`gid`
defaulting to `1000` when absent. -/
def specScriptLine (root : String) (run : ChRun) : String :=
  "chroot --userspec=" ++ toString (run.uid.getD 1000) ++ ":" ++
    toString (run.gid.getD 1000) ++ " " ++ shell_escape root ++
    " /bin/sh -c " ++
    shell_escape ("cd " ++ shell_escape run.workingdir ++ " && " ++
      String.intercalate " "
        ((run.binary :: run.argv.drop 1).map shell_escape)) ++ "\n"

/-- C8: the generated `script.sh` is exactly the shebang header followed
by, for each Run in recorded order, one line of the claimed
`chroot --userspec=<uid>:<gid> <escaped root> /bin/sh -c <escaped 'cd
<workingdir> && <binary> <argv[1:]>'>` form (argument 0 replaced by the
run's binary path, `uid`/`gid` defaulting to `1000:1000` when absent) —
one emitted line per Run. -/
theorem claim_C8_script_lines (root : String) (runs : List ChRun) :
    scriptContent root runs =
      "#!/bin/sh\n\n" ++ concatAll (runs.map (specScriptLine root)) ∧
      (runs.map (specScriptLine root)).length = runs.length := by
  constructor
  · unfold scriptContent
    rw [foldl_append_concatAll (runLine root) runs "#!/bin/sh\n\n"]
    have hline : runLine root = specScriptLine root := by
      funext run
      unfold runLine specScriptLine userspec runCmd
      simp only [String.append_assoc]
    rw [hline]
  · exact List.length_map runs (specScriptLine root)

/-! ## Substring `..` and `os.path.dirname` structure lemmas -/

theorem hasDotDot_cons (c : Char) (rest : List Char) (hc : c ≠ '.')
    (h : hasDotDot rest = false) : hasDotDot (c :: rest) = false := by
  cases rest with
  | nil => rfl
  | cons d t =>
    unfold hasDotDot
    simp [hc, h]

theorem hasDotDot_append_left (xs ys : List Char)
    (h : hasDotDot xs = true) : hasDotDot (xs ++ ys) = true := by
  induction xs with
  | nil => simp [hasDotDot] at h
  | cons c xs ih =>
    cases xs with
    | nil => simp [hasDotDot] at h
    | cons d t =>
      unfold hasDotDot at h ⊢
      rcases Bool.or_eq_true_iff.mp h with h1 | h1
      · simp [h1]
      · simp only [List.cons_append]
        rw [Bool.or_eq_true_iff]
        exact Or.inr (by simpa using ih h1)

theorem hasDotDot_append_right (xs ys : List Char)
    (h : hasDotDot ys = true) : hasDotDot (xs ++ ys) = true := by
  induction xs with
  | nil => simpa using h
  | cons c xs ih =>
    cases hx : xs ++ ys with
    | nil =>
      rcases List.append_eq_nil.mp hx with ⟨rfl, rfl⟩
      simp [hasDotDot] at h
    | cons d t =>
      unfold hasDotDot
      rw [List.cons_append, hx, Bool.or_eq_true_iff]
      exact Or.inr (by rw [← hx]; exact ih)

theorem hasDotDot_prefix (xs ys : List Char) (hpre : xs <+: ys)
    (h : hasDotDot ys = false) : hasDotDot xs = false := by
  obtain ⟨t, rfl⟩ := hpre
  by_contra hx
  rw [Bool.not_eq_false] at hx
  rw [hasDotDot_append_left xs t hx] at h
  exact absurd h (by simp)

theorem hasDotDot_suffix (xs ys : List Char) (hsuf : xs <:+ ys)
    (h : hasDotDot ys = false) : hasDotDot xs = false := by
  obtain ⟨t, rfl⟩ := hsuf
  by_contra hx
  rw [Bool.not_eq_false] at hx
  rw [hasDotDot_append_right t xs hx] at h
  exact absurd h (by simp)

theorem hasDotDot_append_slash (xs rest : List Char)
    (hx : hasDotDot xs = false) (hr : hasDotDot rest = false) :
    hasDotDot (xs ++ '/' :: rest) = false := by
  induction xs with
  | nil => exact hasDotDot_cons '/' rest (by decide) hr
  | cons c xs ih =>
    cases hx2 : xs ++ '/' :: rest with
    | nil => simp at hx2
    | cons d t =>
      have hxs : hasDotDot xs = false := by
        cases xs with
        | nil => rfl
        | cons d2 t2 =>
          unfold hasDotDot at hx
          rw [Bool.or_eq_false_iff] at hx
          exact hx.2
      have hcd : (c = '.' && d = '.') = false := by
        cases xs with
        | nil =>
          simp only [List.nil_append] at hx2
          cases hx2
          simp
        | cons d2 t2 =>
          simp only [List.cons_append] at hx2
          injection hx2 with hd2 _
          subst hd2
          unfold hasDotDot at hx
          rw [Bool.or_eq_false_iff] at hx
          exact hx.1
      unfold hasDotDot
      rw [List.cons_append, hx2, Bool.or_eq_false_iff]
      exact ⟨hcd, by rw [← hx2]; exact ih hxs⟩

theorem dropWhile_append_all {α : Type} (p : α → Bool) (xs ys : List α)
    (h : ∀ a ∈ xs, p a = true) :
    (xs ++ ys).dropWhile p = ys.dropWhile p := by
  induction xs with
  | nil => rfl
  | cons x xs ih =>
    rw [List.cons_append, List.dropWhile_cons,
      if_pos (h x (List.mem_cons_self x xs))]
    exact ih (fun a ha => h a (List.mem_cons_of_mem x ha))

theorem dropWhile_append_stop {α : Type} (p : α → Bool) (xs ys : List α)
    (h : ∃ a ∈ xs, p a = false) :
    (xs ++ ys).dropWhile p = xs.dropWhile p ++ ys := by
  induction xs with
  | nil =>
    obtain ⟨a, ha, _⟩ := h
    simp at ha
  | cons x xs ih =>
    by_cases hx : p x = true
    · rw [List.cons_append, List.dropWhile_cons, if_pos hx,
        List.dropWhile_cons, if_pos hx]
      refine ih ?_
      obtain ⟨a, ha, hpa⟩ := h
      rcases List.mem_cons.mp ha with rfl | ha2
      · rw [hx] at hpa
        cases hpa
      · exact ⟨a, ha2, hpa⟩
    · rw [List.cons_append, List.dropWhile_cons, if_neg hx,
        List.dropWhile_cons, if_neg hx, List.cons_append]

theorem dropWhile_head_false {α : Type} (p : α → Bool) (l : List α) (x : α)
    (xs : List α) (h : l.dropWhile p = x :: xs) : p x = false := by
  induction l with
  | nil => simp at h
  | cons y ys ih =>
    rw [List.dropWhile_cons] at h
    split at h
    · exact ih h
    · next hy =>
      cases h
      simpa using hy

/-- The structure of `os.path.dirname` on a path of the form
`rd ++ "/" ++ rest` whose head part `rd` does not end in a slash: the
dirname is either `rd` itself or `rd ++ "/" ++ pre` for a prefix `pre` of
`rest`. -/
theorem pydirnameData_structure (rd rest : List Char) (c : Char)
    (hlast : rd.getLast? = some c) (hc : c ≠ '/') :
    pydirnameData (rd ++ '/' :: rest) = rd ∨
    ∃ pre, pre <+: rest ∧
      pydirnameData (rd ++ '/' :: rest) = rd ++ '/' :: pre := by
  obtain ⟨tail, htail⟩ : ∃ tail, rd.reverse = c :: tail := by
    cases hr : rd.reverse with
    | nil =>
      rw [← List.head?_reverse, hr] at hlast
      simp at hlast
    | cons c2 t =>
      rw [← List.head?_reverse, hr] at hlast
      simp only [List.head?_cons, Option.some.injEq] at hlast
      exact ⟨t, by rw [hlast]⟩
  have hrev : (rd ++ '/' :: rest).reverse = rest.reverse ++ '/' :: rd.reverse := by
    rw [List.reverse_append, List.reverse_cons, List.append_assoc]
    simp
  unfold pydirnameData
  rw [hrev]
  by_cases hslash : ∀ a ∈ rest.reverse, a ≠ '/'
  · have hu : (rest.reverse ++ '/' :: rd.reverse).dropWhile
        (fun c => decide (c ≠ '/')) = '/' :: rd.reverse := by
      rw [dropWhile_append_all _ _ _ (fun a ha => by simpa using hslash a ha),
        List.dropWhile_cons, if_neg (by simp)]
    rw [hu]
    have hall : (('/' : Char) :: rd.reverse).all
        (fun x => decide (x = '/')) = false := by
      rw [List.all_eq_false]
      exact ⟨c, by
        rw [htail]
        exact List.mem_cons_of_mem _ (List.mem_cons_self c tail),
        by simpa using hc⟩
    rw [hall]
    simp only [Bool.false_eq_true, if_false]
    have hv : (('/' : Char) :: rd.reverse).dropWhile
        (fun c => decide (c = '/')) = rd.reverse := by
      rw [List.dropWhile_cons, if_pos (by simp), htail,
        List.dropWhile_cons, if_neg (by simpa using hc)]
    rw [hv]
    exact Or.inl (by simp)
  · push_neg at hslash
    obtain ⟨a0, ha0, ha0s⟩ := hslash
    have hu : (rest.reverse ++ '/' :: rd.reverse).dropWhile
        (fun c => decide (c ≠ '/')) =
        rest.reverse.dropWhile (fun c => decide (c ≠ '/')) ++
          '/' :: rd.reverse :=
      dropWhile_append_stop _ _ _ ⟨a0, ha0, by simp [ha0s]⟩
    rw [hu]
    have hall : ((rest.reverse.dropWhile (fun c => decide (c ≠ '/'))) ++
        '/' :: rd.reverse).all (fun x => decide (x = '/')) = false := by
      rw [List.all_eq_false]
      refine ⟨c, ?_, by simpa using hc⟩
      rw [List.mem_append, htail]
      exact Or.inr (List.mem_cons_of_mem _ (List.mem_cons_self c tail))
    rw [hall]
    simp only [Bool.false_eq_true, if_false]
    by_cases huall : ∀ a ∈ rest.reverse.dropWhile
        (fun c => decide (c ≠ '/')), a = '/'
    · have hv : ((rest.reverse.dropWhile (fun c => decide (c ≠ '/'))) ++
          '/' :: rd.reverse).dropWhile (fun c => decide (c = '/')) =
          ('/' :: rd.reverse).dropWhile (fun c => decide (c = '/')) :=
        dropWhile_append_all _ _ _ (fun a ha => by simpa using huall a ha)
      have hv2 : (('/' : Char) :: rd.reverse).dropWhile
          (fun c => decide (c = '/')) = rd.reverse := by
        rw [List.dropWhile_cons, if_pos (by simp), htail,
          List.dropWhile_cons, if_neg (by simpa using hc)]
      rw [hv, hv2]
      exact Or.inl (by simp)
    · push_neg at huall
      obtain ⟨b0, hb0, hb0s⟩ := huall
      have hv : ((rest.reverse.dropWhile (fun c => decide (c ≠ '/'))) ++
          '/' :: rd.reverse).dropWhile (fun c => decide (c = '/')) =
          (rest.reverse.dropWhile (fun c => decide (c ≠ '/'))).dropWhile
            (fun c => decide (c = '/')) ++ '/' :: rd.reverse :=
        dropWhile_append_stop _ _ _ ⟨b0, hb0, by simp [hb0s]⟩
      rw [hv]
      refine Or.inr ⟨((rest.reverse.dropWhile
        (fun c => decide (c ≠ '/'))).dropWhile
          (fun c => decide (c = '/'))).reverse, ?_, ?_⟩
      · have h1 : ((rest.reverse.dropWhile
            (fun c => decide (c ≠ '/'))).dropWhile
            (fun c => decide (c = '/'))) <:+ rest.reverse :=
          (List.dropWhile_suffix _).trans (List.dropWhile_suffix _)
        have h2 := List.reverse_prefix.mpr h1
        rwa [List.reverse_reverse] at h2
      · rw [List.reverse_append, List.reverse_cons]
        simp [List.append_assoc]

/-! ## C6: what the pipeline writes stays inside the root — definitions -/

/-- A recorded path in the normal form the reconstruction expects: an
absolute path with a single leading slash and no `..` substring. -/
def cleanAbs (p : String) : Bool :=
  sStartsWith p "/" && !sStartsWith p "//" && !containsDotDot p

/-- The path lies within the target root: it is the root itself or has
`root ++ "/"` as a prefix, and contains no parent-directory segment. -/
def withinRoot (root p : String) : Prop :=
  (p = root ∨ sStartsWith p (root ++ "/") = true) ∧ containsDotDot p = false

/-- The destination a given event writes *inside the root* (`none` for the
creation of the target and root directories themselves, stderr text and
the script file, which lives next to the root, not inside it). -/
def evRootWrite : Ev → Option String
  | Ev.mkdirsHost p => some p
  | Ev.copyHostLink d => some d
  | Ev.copyHostFile d => some d
  | Ev.extractTo d => some d
  | Ev.mkdirsDep p => some p
  | Ev.copyDep d => some d
  | Ev.mkdirsBin p => some p
  | Ev.copyBinSh d => some d
  | Ev.mkdirsWdir p => some p
  | _ => none

theorem cleanAbs_spec (p : String) (h : cleanAbs p = true) :
    sStartsWith p "/" = true ∧ sStartsWith p "//" = false ∧
      containsDotDot p = false := by
  unfold cleanAbs at h
  simp only [Bool.and_eq_true, Bool.not_eq_true'] at h
  exact ⟨h.1.1, h.1.2, h.2⟩

/-- The facts about `root = os.path.join(target, 'root')` used throughout:
its data, nonemptiness, last character, and freedom from `..`. -/
theorem rootOf_facts (target : String) (htc : cleanAbs target = true)
    (hte : sEndsWith target "/" = false) :
    (rootOf target).data = target.data ++ '/' :: ['r', 'o', 'o', 't'] ∧
      rootOf target ≠ "" ∧
      sEndsWith (rootOf target) "/" = false ∧
      containsDotDot (rootOf target) = false ∧
      (rootOf target).data.getLast? = some 't' := by
  obtain ⟨h1, h2, h3⟩ := cleanAbs_spec target htc
  have hne : target ≠ "" := by
    intro he
    rw [he] at h1
    exact absurd h1 (by decide)
  have hdata : (rootOf target).data = target.data ++ '/' :: ['r', 'o', 'o', 't'] := by
    unfold rootOf
    rw [pjoin_rel target "root" (by decide) hne hte]
    rw [sdata_append, sdata_append]
    simp [show ("/" : String).data = ['/'] from rfl,
      show ("root" : String).data = ['r', 'o', 'o', 't'] from rfl]
  have hrev : (rootOf target).data.reverse =
      't' :: 'o' :: 'o' :: 'r' :: '/' :: target.data.reverse := by
    rw [hdata, List.reverse_append]
    simp
  refine ⟨hdata, ?_, ?_, ?_, ?_⟩
  · intro he
    have : (rootOf target).data = [] := by rw [he]
    rw [hdata] at this
    simp at this
  · unfold sEndsWith List.isSuffixOf
    rw [hrev]
    simp [show ("/" : String).data = ['/'] from rfl, List.isPrefixOf]
  · unfold containsDotDot
    rw [hdata]
    exact hasDotDot_append_slash target.data ['r', 'o', 'o', 't'] h3 (by decide)
  · rw [← List.head?_reverse, hrev]
    rfl

/-- Any string whose data is `root.data ++ '/' :: rest` with `..`-free
`root` and `rest` lies within the root. -/
theorem withinRoot_of_data (root p : String) (rest : List Char)
    (hp : p.data = root.data ++ '/' :: rest)
    (hrd : containsDotDot root = false)
    (hrest : hasDotDot rest = false) : withinRoot root p := by
  constructor
  · refine Or.inr ?_
    unfold sStartsWith
    rw [List.isPrefixOf_iff_prefix, sdata_append, hp,
      show ("/" : String).data = ['/'] from rfl]
    rw [show root.data ++ '/' :: rest = root.data ++ ['/'] ++ rest by simp,
      List.append_assoc]
    exact (List.prefix_append_right_inj root.data).mpr ⟨rest, by simp⟩
  · unfold containsDotDot at hrd ⊢
    rw [hp]
    exact hasDotDot_append_slash root.data rest hrd hrest

/-- The copy destination of a clean absolute source path lies within the
root. -/
theorem withinRoot_destFor (root f : String) (hf : cleanAbs f = true)
    (hroot : root ≠ "") (hre : sEndsWith root "/" = false)
    (hrd : containsDotDot root = false) :
    withinRoot root (destFor root f) ∧
      (destFor root f).data = root.data ++ '/' :: (sdrop f 1).data := by
  obtain ⟨h1, h2, h3⟩ := cleanAbs_spec f hf
  obtain ⟨hsplit, htail⟩ := split_abs f h1 h2
  have hdata : (destFor root f).data = root.data ++ '/' :: (sdrop f 1).data := by
    rw [destFor_clean root f h1 h2 hroot hre, sdata_append, hsplit]
  refine ⟨withinRoot_of_data root (destFor root f) (sdrop f 1).data hdata hrd ?_, hdata⟩
  refine hasDotDot_suffix _ f.data ⟨['/'], ?_⟩ h3
  rw [hsplit]
  rfl

/-- `os.path.dirname` of a within-root destination stays within the root
(it is the root itself or a prefix-shaped subdirectory). -/
theorem withinRoot_pydirname (root dest : String) (rest : List Char)
    (hdata : dest.data = root.data ++ '/' :: rest)
    (hlastc : (root.data).getLast? = some 't')
    (hrd : containsDotDot root = false)
    (hrest : hasDotDot rest = false) :
    withinRoot root (pydirname dest) := by
  unfold pydirname
  rw [hdata]
  rcases pydirnameData_structure root.data rest 't' hlastc (by decide) with
    hcase | ⟨pre, hpre, hcase⟩
  · rw [hcase]
    exact ⟨Or.inl (sext rfl), by unfold containsDotDot; exact hrd⟩
  · rw [hcase]
    refine withinRoot_of_data root (String.mk (root.data ++ '/' :: pre)) pre
      rfl hrd ?_
    obtain ⟨t2, rfl⟩ := hpre
    exact hasDotDot_prefix pre (pre ++ t2) ⟨t2, rfl⟩ hrest

/-- The extraction destination of a `DATA/`-member that does not hide a
second slash or a `..` lies within the root. -/
theorem withinRoot_extractDest (root m : String)
    (hm5 : sStartsWith m "DATA/" = true)
    (hm6 : sStartsWith m "DATA//" = false)
    (hmd : containsDotDot m = false)
    (hroot : root ≠ "") (hre : sEndsWith root "/" = false)
    (hrd : containsDotDot root = false) :
    withinRoot root (pjoin root (sdrop m 5)) := by
  unfold sStartsWith at hm5 hm6
  rw [List.isPrefixOf_iff_prefix] at hm5
  obtain ⟨t, ht⟩ := hm5
  have hdrop : (sdrop m 5).data = t := by
    rw [sdrop_data, show (5 : Nat) = ("DATA/" : String).data.length from rfl,
      ← ht, List.drop_left]
  have htabs : sStartsWith (sdrop m 5) "/" = false := by
    unfold sStartsWith
    rw [hdrop]
    cases t with
    | nil => rfl
    | cons c t2 =>
      by_cases hcs : c = '/'
      · subst hcs
        exfalso
        have hpref : ("DATA//" : String).data <+: m.data := by
          rw [← ht, show ("DATA//" : String).data =
            ("DATA/" : String).data ++ ['/'] from rfl,
            show ("DATA/" : String).data ++ '/' :: t2 =
              (("DATA/" : String).data ++ ['/']) ++ t2 by simp]
          exact ⟨t2, rfl⟩
        exact absurd (List.isPrefixOf_iff_prefix.mpr hpref) (by simp [hm6])
      · have hbeq : ('/' == c) = false := beq_eq_false_iff_ne.mpr (Ne.symm hcs)
        simp [List.isPrefixOf, show ("/" : String).data = ['/'] from rfl, hbeq]
  have hdd : hasDotDot (sdrop m 5).data = false := by
    rw [hdrop]
    exact hasDotDot_suffix t m.data ⟨("DATA/" : String).data, ht⟩ hmd
  rw [pjoin_rel root (sdrop m 5) htabs hroot hre]
  refine withinRoot_of_data root _ (sdrop m 5).data ?_ hrd hdd
  rw [sdata_append, sdata_append]
  simp [show ("/" : String).data = ['/'] from rfl]

/-- The `bin` and `bin/sh` destinations lie within the root. -/
theorem withinRoot_bin (root sub : String)
    (hsub : sStartsWith sub "/" = false) (hdd : hasDotDot sub.data = false)
    (hroot : root ≠ "") (hre : sEndsWith root "/" = false)
    (hrd : containsDotDot root = false) :
    withinRoot root (pjoin root sub) := by
  rw [pjoin_rel root sub hsub hroot hre]
  refine withinRoot_of_data root _ sub.data ?_ hrd hdd
  rw [sdata_append, sdata_append]
  simp [show ("/" : String).data = ['/'] from rfl]

/-- The working-directory destination of a clean recorded directory lies
within the root. -/
theorem withinRoot_wdirDest (root d : String) (hd : cleanAbs d = true)
    (hroot : root ≠ "") (hre : sEndsWith root "/" = false)
    (hrd : containsDotDot root = false) :
    withinRoot root (wdirDest root d) := by
  obtain ⟨h1, _, _⟩ := cleanAbs_spec d hd
  have hwd : wdirDest root d = destFor root d := by
    unfold wdirDest destFor
    rw [if_pos h1]
  rw [hwd]
  exact (withinRoot_destFor root d hd hroot hre hrd).1

theorem hostEvFor_within (root f : String) (e : Ev)
    (hev : hostEvFor root f e) (hf : cleanAbs f = true)
    (hroot : root ≠ "") (hre : sEndsWith root "/" = false)
    (hrd : containsDotDot root = false)
    (hlastc : (root.data).getLast? = some 't') :
    ∀ p, evRootWrite e = some p → withinRoot root p := by
  obtain ⟨hwd, hdata⟩ := withinRoot_destFor root f hf hroot hre hrd
  have hdd : hasDotDot (sdrop f 1).data = false := by
    obtain ⟨h1, h2, h3⟩ := cleanAbs_spec f hf
    obtain ⟨hsplit, _⟩ := split_abs f h1 h2
    refine hasDotDot_suffix _ f.data ⟨['/'], ?_⟩ h3
    rw [hsplit]
    rfl
  rcases hev with rfl | rfl | rfl | rfl
  · intro p hp
    simp [evRootWrite] at hp
  · intro p hp
    simp only [evRootWrite, Option.some.injEq] at hp
    subst hp
    exact withinRoot_pydirname root (destFor root f) (sdrop f 1).data hdata
      hlastc hrd hdd
  · intro p hp
    simp only [evRootWrite, Option.some.injEq] at hp
    subst hp
    exact hwd
  · intro p hp
    simp only [evRootWrite, Option.some.injEq] at hp
    subst hp
    exact hwd

theorem extractStage_events_dd (root : String) (members : List String) :
    ∀ e ∈ (extractStage root members).1,
      ∃ m ∈ members, sStartsWith m "DATA/" = true ∧
        containsDotDot m = false ∧
        e = Ev.extractTo (pjoin root (sdrop m 5)) := by
  intro e he
  unfold extractStage at he
  split at he
  · simp at he
  · next hno =>
    rw [Bool.not_eq_true, List.any_eq_false] at hno
    simp only [List.mem_map, List.mem_filter] at he
    obtain ⟨m, ⟨hm, hdata5⟩, rfl⟩ := he
    exact ⟨m, hm, hdata5, by simpa using hno m hm, rfl⟩

/-- C6 (as amended): the pipeline computes every write destination by
stripping a single leading slash from the recorded path and joining it
under the root, without validating the recorded paths themselves; when
every recorded path (host chain paths, `ldd` dependency paths, trace
working directories) is a clean absolute path — one leading slash, no `..`
substring — and no `DATA/` member hides a second slash, then every
destination written into the root (copies, symlinks, extractions,
directory creations) lies within the root and contains no
parent-directory segment.  (Without those cleanliness assumptions the
invariant fails: see `claim_C6_counterexample`.) -/
theorem claim_C6_within_root (cfg : ChConfig)
    (htc : cleanAbs cfg.target = true)
    (hte : sEndsWith cfg.target "/" = false)
    (hchain : ∀ pkg ∈ cfg.packages, ∀ ff ∈ pkg.files,
      ∀ f ∈ find_all_links cfg.host ff, cleanAbs f = true)
    (hldd : ∀ l ∈ cfg.lddOutput, ∀ f, matchLddLine l = some f →
      cleanAbs f = true)
    (hwd : ∀ ds, cfg.traceDirs = some ds → ∀ d ∈ ds, cleanAbs d = true)
    (hmem : ∀ m ∈ cfg.packMembers, sStartsWith m "DATA//" = false) :
    ∀ e ∈ (create_chroot cfg).1, ∀ p, evRootWrite e = some p →
      withinRoot (rootOf cfg.target) p := by
  obtain ⟨hrdata, hroot, hre, hrd, hlastc⟩ := rootOf_facts cfg.target htc hte
  have e0W : ∀ e ∈ [Ev.mkTarget cfg.target, Ev.mkRoot (rootOf cfg.target)],
      ∀ p, evRootWrite e = some p → withinRoot (rootOf cfg.target) p := by
    intro e he p hp
    fin_cases he <;> simp [evRootWrite] at hp
  have hostW : ∀ (prior : List Ev),
      ∀ e ∈ (hostStage cfg.host (rootOf cfg.target) prior cfg.packages).1,
      ∀ p, evRootWrite e = some p → withinRoot (rootOf cfg.target) p := by
    intro prior e he
    rcases hostStage_events cfg.host (rootOf cfg.target) prior cfg.packages
        e he with rfl | ⟨pkg, hpkg, _, ff, hff, f, hf, hev⟩
    · intro p hp
      simp [evRootWrite] at hp
    · exact hostEvFor_within (rootOf cfg.target) f e hev
        (hchain pkg hpkg ff hff f hf) hroot hre hrd hlastc
  have extractW :
      ∀ e ∈ (extractStage (rootOf cfg.target) cfg.packMembers).1,
      ∀ p, evRootWrite e = some p → withinRoot (rootOf cfg.target) p := by
    intro e he
    obtain ⟨m, hm, hm5, hmdd, rfl⟩ :=
      extractStage_events_dd (rootOf cfg.target) cfg.packMembers e he
    intro p hp
    simp only [evRootWrite, Option.some.injEq] at hp
    subst hp
    exact withinRoot_extractDest (rootOf cfg.target) m hm5 (hmem m hm) hmdd
      hroot hre hrd
  have depW : ∀ (prior : List Ev),
      ∀ e ∈ (depCopyLines cfg.host (rootOf cfg.target) prior cfg.lddOutput).1,
      ∀ p, evRootWrite e = some p → withinRoot (rootOf cfg.target) p := by
    intro prior e he
    obtain ⟨l, hl, f, hmf, hor⟩ :=
      depCopyLines_events cfg.host (rootOf cfg.target) prior cfg.lddOutput e he
    have hf := hldd l hl f hmf
    obtain ⟨hwdest, hdata⟩ :=
      withinRoot_destFor (rootOf cfg.target) f hf hroot hre hrd
    have hdd : hasDotDot (sdrop f 1).data = false := by
      obtain ⟨h1, h2, h3⟩ := cleanAbs_spec f hf
      obtain ⟨hsplit, _⟩ := split_abs f h1 h2
      refine hasDotDot_suffix _ f.data ⟨['/'], ?_⟩ h3
      rw [hsplit]
      rfl
    rcases hor with rfl | rfl
    · intro p hp
      simp only [evRootWrite, Option.some.injEq] at hp
      subst hp
      exact withinRoot_pydirname (rootOf cfg.target)
        (destFor (rootOf cfg.target) f) (sdrop f 1).data hdata hlastc hrd hdd
    · intro p hp
      simp only [evRootWrite, Option.some.injEq] at hp
      subst hp
      exact hwdest
  have binW : ∀ (prior : List Ev),
      ∀ e ∈ (binShStage cfg.host (rootOf cfg.target) prior).1,
      ∀ p, evRootWrite e = some p → withinRoot (rootOf cfg.target) p := by
    intro prior e he
    rcases binShStage_events cfg.host (rootOf cfg.target) prior e he with
      rfl | rfl
    · intro p hp
      simp only [evRootWrite, Option.some.injEq] at hp
      subst hp
      exact withinRoot_bin (rootOf cfg.target) "bin" (by decide) (by decide)
        hroot hre hrd
    · intro p hp
      simp only [evRootWrite, Option.some.injEq] at hp
      subst hp
      exact withinRoot_bin (rootOf cfg.target) "bin/sh" (by decide)
        (by decide) hroot hre hrd
  have wdW : ∀ e ∈ wdirStage (rootOf cfg.target) cfg.traceDirs,
      ∀ p, evRootWrite e = some p → withinRoot (rootOf cfg.target) p := by
    intro e he
    rcases wdirStage_events (rootOf cfg.target) cfg.traceDirs e he with
      rfl | ⟨ds, hds, d, hd, rfl⟩
    · intro p hp
      simp [evRootWrite] at hp
    · intro p hp
      simp only [evRootWrite, Option.some.injEq] at hp
      subst hp
      exact withinRoot_wdirDest (rootOf cfg.target) d (hwd ds hds d hd)
        hroot hre hrd
  unfold create_chroot
  split
  · intro e he
    simp at he
  · simp only []
    split
    next x e1 r1 heq1 =>
      intro e he
      rw [List.mem_append] at he
      rcases he with he | he
      · exact e0W e he
      · exact hostW _ e (by rw [heq1]; exact he)
    next x e1 heq1 =>
      have h1W : ∀ e ∈ e1, ∀ p, evRootWrite e = some p →
          withinRoot (rootOf cfg.target) p :=
        fun e he => hostW _ e (by rw [heq1]; exact he)
      split
      next x2 e2 r2 heq2 =>
        intro e he
        rw [List.mem_append, List.mem_append] at he
        rcases he with (he | he) | he
        · exact e0W e he
        · exact h1W e he
        · exact extractW e (by rw [heq2]; exact he)
      next x2 e2 heq2 =>
        have h2W : ∀ e ∈ e2, ∀ p, evRootWrite e = some p →
            withinRoot (rootOf cfg.target) p :=
          fun e he => extractW e (by rw [heq2]; exact he)
        split
        next x3 e3 r3 heq3 =>
          intro e he
          rw [List.mem_append, List.mem_append, List.mem_append] at he
          rcases he with ((he | he) | he) | he
          · exact e0W e he
          · exact h1W e he
          · exact h2W e he
          · exact depW _ e (by rw [heq3]; exact he)
        next x3 e3 heq3 =>
          have h3W : ∀ e ∈ e3, ∀ p, evRootWrite e = some p →
              withinRoot (rootOf cfg.target) p :=
            fun e he => depW _ e (by rw [heq3]; exact he)
          split
          · intro e he
            rw [List.mem_append, List.mem_append, List.mem_append] at he
            rcases he with ((he | he) | he) | he
            · exact e0W e he
            · exact h1W e he
            · exact h2W e he
            · exact h3W e he
          · split
            next x4 e4 r4 heq4 =>
              intro e he
              rw [List.mem_append, List.mem_append, List.mem_append,
                List.mem_append] at he
              rcases he with (((he | he) | he) | he) | he
              · exact e0W e he
              · exact h1W e he
              · exact h2W e he
              · exact h3W e he
              · exact binW _ e (by rw [heq4]; exact he)
            next x4 e4 heq4 =>
              intro e he
              rw [List.mem_append, List.mem_append, List.mem_append,
                List.mem_append, List.mem_append, List.mem_append] at he
              rcases he with
                (((((he | he) | he) | he) | he) | he) | he
              · exact e0W e he
              · exact h1W e he
              · exact h2W e he
              · exact h3W e he
              · exact binW _ e (by rw [heq4]; exact he)
              · exact wdW e he
              · intro p hp
                rw [List.mem_singleton] at he
                subst he
                simp [evRootWrite] at hp

/-- A clean configuration: absolute `..`-free recorded paths only. -/
def cfgC6w : ChConfig :=
  { target := "/t", targetExists := false, runs := [], packages := [],
    packMembers := ["DATA/ok"], lddOutput := [], lddExit := 0,
    traceDirs := some ["/var/empty"],
    host := { hostPaths := ["/bin/sh"], symlinks := [], chains := [] } }

/-- C6 witness: `claim_C6_within_root` on `cfgC6w`, applied to the
working-directory creation event for `/var/empty`. -/
theorem claim_C6_witness :
    withinRoot (rootOf cfgC6w.target) "/t/root/var/empty" :=
  claim_C6_within_root cfgC6w (by decide) (by decide)
    (by intro pkg hpkg; simp [cfgC6w] at hpkg)
    (by intro l hl; simp [cfgC6w] at hl)
    (by
      intro ds hds d hd
      obtain rfl : ds = ["/var/empty"] := (Option.some.inj hds).symm
      fin_cases hd
      decide)
    (by decide)
    (Ev.mkdirsWdir "/t/root/var/empty") (by decide)
    "/t/root/var/empty" (by decide)
